import Mathlib

/-!
Verification of the anomaly-scoring pipeline specification for the
`anamoly_processing` repository.

The repository sources hold the React frontend (`Analytics.jsx`,
`App.jsx`, `Dashboard.jsx`, `TransactionList.jsx`, `UploadSection.jsx`,
`LiveDataConnector.jsx`) together with documentation.  Frontend
computations are embedded directly from the JSX sources.  The backend
pipeline (warehouse, feature builder, anomaly model, risk normalizer,
explainer) is not among the source files, so those operations are
modelled from the specification; each such definition is marked
`Modelled from the spec:` in its doc comment.

Numbers are modelled as rationals (`ℚ`); timestamps as naturals.
-/

namespace AnomalyProcessing

/-- Risk tier enumeration Low/Medium/High/Critical (spec section 3). -/
inductive RiskLevel where
  | Low
  | Medium
  | High
  | Critical
deriving DecidableEq, Repr

/-- Modelled from the spec: the backend risk-tier assignment (the risk
normalizer of spec section 4.5 is not among the source files).  Tier
thresholds are fixed breakpoints: Low [0,30), Medium [30,60),
High [60,85), Critical [85,100]. -/
def riskLevelOf (score : ℚ) : RiskLevel :=
  if score < 30 then RiskLevel.Low
  else if score < 60 then RiskLevel.Medium
  else if score < 85 then RiskLevel.High
  else RiskLevel.Critical

/-- Clamp a score into the interval [0, 100]. -/
def clampScore (x : ℚ) : ℚ := max 0 (min 100 x)

/-- Modelled from the spec: the risk normalizer (spec section 4.5, absent
from the source files).  The raw anomaly score is linearly rescaled
against the empirical minimum and maximum of the scored batch (a more
negative raw score means more anomalous, so the batch minimum maps to
100 and the batch maximum to 0), clamped to [0,100]; then a fixed
additive boost of +15, capped at 100, is applied exactly when the model
flagged the transaction as an outlier.  A degenerate batch (maximum
equal to minimum) gets the midpoint score 50 before the boost. -/
def normalizeBase (rawMin rawMax raw : ℚ) : ℚ :=
  if rawMax = rawMin then 50
  else clampScore ((rawMax - raw) / (rawMax - rawMin) * 100)

/-- Modelled from the spec: the full normalized risk score, the rescaled
base score plus the +15 outlier boost capped at 100. -/
def normalizeRisk (rawMin rawMax raw : ℚ) (isOutlier : Bool) : ℚ :=
  if isOutlier then min 100 (normalizeBase rawMin rawMax raw + 15)
  else normalizeBase rawMin rawMax raw

theorem clampScore_nonneg (x : ℚ) : 0 ≤ clampScore x := le_max_left 0 _

theorem clampScore_le (x : ℚ) : clampScore x ≤ 100 :=
  max_le (by norm_num) (min_le_left 100 x)

theorem normalizeBase_nonneg (rawMin rawMax raw : ℚ) :
    0 ≤ normalizeBase rawMin rawMax raw := by
  unfold normalizeBase
  split_ifs with h
  · norm_num
  · exact clampScore_nonneg _

theorem normalizeBase_le (rawMin rawMax raw : ℚ) :
    normalizeBase rawMin rawMax raw ≤ 100 := by
  unfold normalizeBase
  split_ifs with h
  · norm_num
  · exact clampScore_le _

/-- C1: for every risk score in [0,100] the assigned tier is determined by
the fixed breakpoints Low [0,30), Medium [30,60), High [60,85),
Critical [85,100]; in particular 29.999 yields Low, 30 yields Medium and
85 yields Critical. -/
theorem riskLevelOf_fixed_breakpoints (s : ℚ) (h0 : 0 ≤ s) (h100 : s ≤ 100) :
    (riskLevelOf s = RiskLevel.Low ↔ 0 ≤ s ∧ s < 30) ∧
    (riskLevelOf s = RiskLevel.Medium ↔ 30 ≤ s ∧ s < 60) ∧
    (riskLevelOf s = RiskLevel.High ↔ 60 ≤ s ∧ s < 85) ∧
    (riskLevelOf s = RiskLevel.Critical ↔ 85 ≤ s ∧ s ≤ 100) ∧
    riskLevelOf (29999 / 1000 : ℚ) = RiskLevel.Low ∧
    riskLevelOf 30 = RiskLevel.Medium ∧
    riskLevelOf 85 = RiskLevel.Critical := by
  have hLow : riskLevelOf s = RiskLevel.Low ↔ 0 ≤ s ∧ s < 30 := by
    unfold riskLevelOf
    split_ifs with ha hb hc
    · exact iff_of_true rfl ⟨h0, ha⟩
    · exact iff_of_false (by decide) (by intro h; exact ha h.2)
    · exact iff_of_false (by decide) (by intro h; exact ha h.2)
    · exact iff_of_false (by decide) (by intro h; exact ha h.2)
  have hMed : riskLevelOf s = RiskLevel.Medium ↔ 30 ≤ s ∧ s < 60 := by
    unfold riskLevelOf
    split_ifs with ha hb hc
    · exact iff_of_false (by decide) (by intro h; linarith [h.1])
    · exact iff_of_true rfl ⟨le_of_not_lt ha, hb⟩
    · exact iff_of_false (by decide) (by intro h; exact hb h.2)
    · exact iff_of_false (by decide) (by intro h; exact hb h.2)
  have hHigh : riskLevelOf s = RiskLevel.High ↔ 60 ≤ s ∧ s < 85 := by
    unfold riskLevelOf
    split_ifs with ha hb hc
    · exact iff_of_false (by decide) (by intro h; linarith [h.1])
    · exact iff_of_false (by decide) (by intro h; linarith [h.1])
    · exact iff_of_true rfl ⟨le_of_not_lt hb, hc⟩
    · exact iff_of_false (by decide) (by intro h; exact hc h.2)
  have hCrit : riskLevelOf s = RiskLevel.Critical ↔ 85 ≤ s ∧ s ≤ 100 := by
    unfold riskLevelOf
    split_ifs with ha hb hc
    · exact iff_of_false (by decide) (by intro h; linarith [h.1])
    · exact iff_of_false (by decide) (by intro h; linarith [h.1])
    · exact iff_of_false (by decide) (by intro h; linarith [h.1])
    · exact iff_of_true rfl ⟨le_of_not_lt hc, h100⟩
  refine ⟨hLow, hMed, hHigh, hCrit, ?_, ?_, ?_⟩
  · unfold riskLevelOf
    norm_num
  · unfold riskLevelOf
    norm_num
  · unfold riskLevelOf
    norm_num

/-- Witness for `riskLevelOf_fixed_breakpoints` at the boundary score 30. -/
theorem riskLevelOf_fixed_breakpoints_witness :
    riskLevelOf 30 = RiskLevel.Medium ↔ (30 : ℚ) ≤ 30 ∧ (30 : ℚ) < 60 :=
  (riskLevelOf_fixed_breakpoints 30 (by norm_num) (by norm_num)).2.1

/-- C2: the risk normalizer always outputs a score in [0,100], and the +15
boost (capped at 100) is applied exactly when the outlier flag is set. -/
theorem normalizeRisk_bounded (rawMin rawMax raw : ℚ) (flagged : Bool) :
    0 ≤ normalizeRisk rawMin rawMax raw flagged ∧
    normalizeRisk rawMin rawMax raw flagged ≤ 100 ∧
    normalizeRisk rawMin rawMax raw true =
      min 100 (normalizeRisk rawMin rawMax raw false + 15) := by
  have hb0 := normalizeBase_nonneg rawMin rawMax raw
  have hb100 := normalizeBase_le rawMin rawMax raw
  refine ⟨?_, ?_, by simp [normalizeRisk]⟩
  · cases flagged with
    | false => simpa [normalizeRisk] using hb0
    | true =>
        simp only [normalizeRisk, if_true]
        exact le_min (by norm_num) (by linarith)
  · cases flagged with
    | false => simpa [normalizeRisk] using hb100
    | true =>
        simp only [normalizeRisk, if_true]
        exact min_le_left _ _

/-- Error taxonomy for model training (spec sections 4.4 and 7). -/
inductive TrainError where
  | InsufficientDataError
  | ContaminationOutOfRangeError
deriving DecidableEq, Repr

/-- Modelled from the spec: a trained model record (spec section 3) — the
version, the contamination parameter used, and the training sample count. -/
structure TrainedModel where
  version : ℕ
  contamination : ℚ
  sampleCount : ℕ
deriving DecidableEq, Repr

/-- Modelled from the spec: the validation errors raised by training —
InsufficientDataError when fewer than 10 feature rows are supplied,
ContaminationOutOfRangeError when the contamination fraction lies outside
the half-open interval (0, 0.5]. -/
def trainErrors (rows : ℕ) (contamination : ℚ) : List TrainError :=
  (if rows < 10 then [TrainError.InsufficientDataError] else []) ++
    (if contamination ≤ 0 ∨ 1 / 2 < contamination then
      [TrainError.ContaminationOutOfRangeError] else [])

/-- Modelled from the spec: atomic training (spec section 4.4).  The state
is the previously active model, if any.  On success a fresh model replaces
the old one wholesale; on failure the state is returned unchanged, the
previously active model still serving. -/
def train (state : Option TrainedModel) (rows : ℕ) (contamination : ℚ) :
    Option TrainedModel × Except (List TrainError) TrainedModel :=
  if trainErrors rows contamination = [] then
    (some ⟨(state.map TrainedModel.version).getD 0 + 1, contamination, rows⟩,
      Except.ok ⟨(state.map TrainedModel.version).getD 0 + 1, contamination, rows⟩)
  else
    (state, Except.error (trainErrors rows contamination))

theorem trainErrors_insufficient_mem (rows : ℕ) (c : ℚ) :
    TrainError.InsufficientDataError ∈ trainErrors rows c ↔ rows < 10 := by
  by_cases h1 : rows < 10 <;> by_cases h2 : c ≤ 0 ∨ 1 / 2 < c <;>
    simp [trainErrors, h1, h2]

theorem trainErrors_contamination_mem (rows : ℕ) (c : ℚ) :
    TrainError.ContaminationOutOfRangeError ∈ trainErrors rows c ↔
      (c ≤ 0 ∨ 1 / 2 < c) := by
  by_cases h1 : rows < 10 <;> by_cases h2 : c ≤ 0 ∨ 1 / 2 < c <;>
    simp [trainErrors, h1, h2]

theorem trainErrors_nil_iff (rows : ℕ) (c : ℚ) :
    trainErrors rows c = [] ↔ ¬rows < 10 ∧ ¬(c ≤ 0 ∨ 1 / 2 < c) := by
  by_cases h1 : rows < 10 <;> by_cases h2 : c ≤ 0 ∨ 1 / 2 < c <;>
    simp [trainErrors, h1, h2]

/-- C3: training fails with InsufficientDataError exactly when fewer than
10 feature rows are supplied and with ContaminationOutOfRangeError exactly
when the contamination fraction is outside (0, 0.5]; 9 rows fail and 10
rows with an in-range contamination succeed; every failure leaves the
previously active model unchanged. -/
theorem train_error_conditions (state : Option TrainedModel) (rows : ℕ) (c : ℚ) :
    ((∃ errs, (train state rows c).2 = Except.error errs ∧
        TrainError.InsufficientDataError ∈ errs) ↔ rows < 10) ∧
    ((∃ errs, (train state rows c).2 = Except.error errs ∧
        TrainError.ContaminationOutOfRangeError ∈ errs) ↔ (c ≤ 0 ∨ 1 / 2 < c)) ∧
    (∀ errs, (train state rows c).2 = Except.error errs →
        (train state rows c).1 = state) ∧
    (∃ errs, (train state 9 c).2 = Except.error errs ∧
        TrainError.InsufficientDataError ∈ errs) ∧
    (0 < c → c ≤ 1 / 2 → ∃ m, (train state 10 c).2 = Except.ok m) := by
  have h9 : ∃ errs, (train state 9 c).2 = Except.error errs ∧
      TrainError.InsufficientDataError ∈ errs := by
    have hm : TrainError.InsufficientDataError ∈ trainErrors 9 c :=
      (trainErrors_insufficient_mem 9 c).mpr (by norm_num)
    have hne : trainErrors 9 c ≠ [] := List.ne_nil_of_mem hm
    refine ⟨trainErrors 9 c, ?_, hm⟩
    simp only [train, if_neg hne]
  have h10 : 0 < c → c ≤ 1 / 2 → ∃ m, (train state 10 c).2 = Except.ok m := by
    intro hc1 hc2
    have hnil : trainErrors 10 c = [] :=
      (trainErrors_nil_iff 10 c).mpr ⟨by norm_num, by rintro (h | h) <;> linarith⟩
    exact ⟨⟨(state.map TrainedModel.version).getD 0 + 1, c, 10⟩,
      by simp [train, hnil]⟩
  by_cases h : trainErrors rows c = []
  · obtain ⟨hrn, hcn⟩ := (trainErrors_nil_iff rows c).mp h
    refine ⟨?_, ?_, ?_, h9, h10⟩
    · refine iff_of_false ?_ hrn
      rintro ⟨errs, herr, -⟩
      simp only [train, if_pos h] at herr
      exact Except.noConfusion herr
    · refine iff_of_false ?_ hcn
      rintro ⟨errs, herr, -⟩
      simp only [train, if_pos h] at herr
      exact Except.noConfusion herr
    · intro errs herr
      simp only [train, if_pos h] at herr
      exact Except.noConfusion herr
  · refine ⟨?_, ?_, ?_, h9, h10⟩
    · rw [← trainErrors_insufficient_mem rows c]
      simp only [train, if_neg h]
      constructor
      · rintro ⟨errs, herr, hm⟩
        rw [Except.error.injEq] at herr
        exact herr ▸ hm
      · intro hm
        exact ⟨trainErrors rows c, rfl, hm⟩
    · rw [← trainErrors_contamination_mem rows c]
      simp only [train, if_neg h]
      constructor
      · rintro ⟨errs, herr, hm⟩
        rw [Except.error.injEq] at herr
        exact herr ▸ hm
      · intro hm
        exact ⟨trainErrors rows c, rfl, hm⟩
    · intro errs herr
      simp only [train, if_neg h]

/-- Witness for `train_error_conditions`: training on 10 rows with the
default contamination 0.1 succeeds. -/
theorem train_error_conditions_witness :
    0 < (1 / 10 : ℚ) ∧ (1 / 10 : ℚ) ≤ 1 / 2 ∧
      ∃ m, (train none 10 (1 / 10)).2 = Except.ok m :=
  ⟨by norm_num, by norm_num,
    (train_error_conditions none 10 (1 / 10)).2.2.2.2 (by norm_num) (by norm_num)⟩

/-- Transaction record (spec section 3): `amount`, `timestamp`, optional
`user_id`, and the declared `source`.  The identity used for dedup is the
deterministic hash of amount, timestamp, user and source, modelled as the
tuple of those four fields. -/
structure Txn where
  amount : ℚ
  timestamp : ℕ
  userId : Option String
  source : String
deriving DecidableEq, Repr

/-- Modelled from the spec: the transaction identity used for dedup. -/
def Txn.identity (t : Txn) : ℚ × ℕ × Option String × String :=
  (t.amount, t.timestamp, t.userId, t.source)

/-- Modelled from the spec: the warehouse as the ordered log of stored
transactions (spec section 4.2; the backend store is absent from src). -/
structure Warehouse where
  rows : List Txn
deriving DecidableEq, Repr

/-- Modelled from the spec: identity lookup against existing storage. -/
def Warehouse.hasIdentity (w : Warehouse) (t : Txn) : Bool :=
  w.rows.any fun r => decide (r.identity = t.identity)

/-- Modelled from the spec: appending one row — an already-present identity
is a no-op, not an error; a fresh identity is inserted at the end; the
second component is the count inserted (0 or 1). -/
def Warehouse.appendOne (w : Warehouse) (t : Txn) : Warehouse × ℕ :=
  if w.hasIdentity t then (w, 0) else (⟨w.rows ++ [t]⟩, 1)

/-- Modelled from the spec: append(rows) deduplicates each row by identity
against existing storage and returns the count actually inserted. -/
def Warehouse.append (w : Warehouse) (ts : List Txn) : Warehouse × ℕ :=
  ts.foldl (fun acc t => ((acc.1.appendOne t).1, acc.2 + (acc.1.appendOne t).2))
    (w, 0)

theorem Warehouse.hasIdentity_appendOne (w : Warehouse) (t : Txn) :
    (w.appendOne t).1.hasIdentity t = true := by
  unfold Warehouse.appendOne
  by_cases h : w.hasIdentity t = true
  · rw [if_pos h]
    exact h
  · rw [if_neg h]
    simp [Warehouse.hasIdentity, List.any_append]

theorem Warehouse.append_single (w : Warehouse) (t : Txn) :
    w.append [t] = ((w.appendOne t).1, (w.appendOne t).2) := by
  simp [Warehouse.append]

/-- C4: warehouse append is idempotent per transaction identity — appending
a row whose identity already exists in storage is a no-op returning
inserted count 0, and after any first append of a row a second append of
the same row leaves the row count unchanged and inserts nothing. -/
theorem warehouse_append_dedup (w : Warehouse) (t : Txn) :
    (w.hasIdentity t = true → w.append [t] = (w, 0)) ∧
    ((w.append [t]).1.append [t] = ((w.append [t]).1, 0)) ∧
    (((w.append [t]).1.append [t]).1.rows.length =
      (w.append [t]).1.rows.length) := by
  have hnoop : ∀ v : Warehouse, v.hasIdentity t = true → v.append [t] = (v, 0) := by
    intro v hv
    rw [Warehouse.append_single]
    simp [Warehouse.appendOne, hv]
  have hsecond : (w.append [t]).1.append [t] = ((w.append [t]).1, 0) := by
    apply hnoop
    rw [Warehouse.append_single]
    exact Warehouse.hasIdentity_appendOne w t
  exact ⟨hnoop w, hsecond, by rw [hsecond]⟩

/-- Witness for `warehouse_append_dedup`: a one-row warehouse already
containing the appended transaction. -/
theorem warehouse_append_dedup_witness :
    (Warehouse.mk [⟨5, 0, none, "upload"⟩]).hasIdentity ⟨5, 0, none, "upload"⟩ = true ∧
    (Warehouse.mk [⟨5, 0, none, "upload"⟩]).append [⟨5, 0, none, "upload"⟩] =
      (Warehouse.mk [⟨5, 0, none, "upload"⟩], 0) :=
  ⟨by decide,
    (warehouse_append_dedup (Warehouse.mk [⟨5, 0, none, "upload"⟩])
      ⟨5, 0, none, "upload"⟩).1 (by decide)⟩

/-- Modelled from the spec: the per-user profile snapshot read by the
feature builder (spec section 3) — running count, mean amount, and the
timestamp of the user's previous transaction, if any. -/
structure UserProfile where
  count : ℕ
  meanAmount : ℚ
  lastSeen : Option ℕ
deriving DecidableEq, Repr

/-- Modelled from the spec: the feature vector (spec section 4.3).
Timestamps are modelled in hours since a fixed reference epoch, so
hour-of-day is the timestamp modulo 24 and day-of-week the timestamp
divided by 24 modulo 7, Saturday and Sunday being days 5 and 6 under the
documented reference.  Categorical encodings are not modelled since no
claim depends on them. -/
structure FeatureVec where
  amount : ℚ
  amountLog : ℚ
  hour : ℕ
  dayOfWeek : ℕ
  isWeekend : Bool
  isNight : Bool
  amountVsUserAvg : ℚ
  timeSinceLastTx : ℚ
deriving DecidableEq, Repr

/-- Modelled from the spec: the feature builder, a pure function of the
transaction and the user-profile snapshot (spec section 4.3).  The
transcendental amount_log = ln(1 + amount) is abstracted as the supplied
`log1p` function.  `amount_vs_user_avg` is amount / user mean when the
user has at least one prior transaction and the neutral 1.0 otherwise;
`time_since_last_tx` is the hours since the user's previous transaction,
or the sentinel 720 when none exists. -/
def buildFeatures (log1p : ℚ → ℚ) (t : Txn) (p : UserProfile) : FeatureVec :=
  { amount := t.amount
    amountLog := log1p t.amount
    hour := t.timestamp % 24
    dayOfWeek := t.timestamp / 24 % 7
    isWeekend := decide (t.timestamp / 24 % 7 = 5 ∨ t.timestamp / 24 % 7 = 6)
    isNight := decide (t.timestamp % 24 ≤ 5)
    amountVsUserAvg := if 1 ≤ p.count then t.amount / p.meanAmount else 1
    timeSinceLastTx :=
      match p.lastSeen with
      | some prev => (t.timestamp : ℚ) - (prev : ℚ)
      | none => 720 }

/-- Modelled from the spec: the user's prior transactions within the
stored batch — same user identity, strictly earlier timestamp. -/
def priorTxns (ts : List Txn) (t : Txn) : List Txn :=
  ts.filter fun u => decide (u.userId = t.userId ∧ u.timestamp < t.timestamp)

/-- Modelled from the spec: the profile snapshot derived from a user's
prior transactions, read-only for the feature builder. -/
def profileOf (prior : List Txn) : UserProfile :=
  { count := prior.length
    meanAmount :=
      if prior.length = 0 then 0
      else (prior.map Txn.amount).sum / (prior.length : ℚ)
    lastSeen := (prior.map Txn.timestamp).max? }

/-- Modelled from the spec: a scoring model — the trained estimator's raw
anomaly score and outlier flag, abstracted as functions of the feature
vector (the spec fixes no estimator formula), plus the `log1p` of the
feature schema the model was trained against. -/
structure ScoringModel where
  log1p : ℚ → ℚ
  rawScore : FeatureVec → ℚ
  isOutlier : FeatureVec → Bool

/-- Modelled from the spec: a stored transaction together with its scoring
fields, set by update_scores after an inference pass. -/
structure ScoredTxn where
  txn : Txn
  riskScore : Option ℚ
  riskLevel : Option RiskLevel
deriving DecidableEq, Repr

/-- Modelled from the spec: the raw score of one transaction of the batch. -/
def rawOf (m : ScoringModel) (ts : List Txn) (t : Txn) : ℚ :=
  m.rawScore (buildFeatures m.log1p t (profileOf (priorTxns ts t)))

/-- Modelled from the spec: the outlier flag of one transaction of the batch. -/
def flagOf (m : ScoringModel) (ts : List Txn) (t : Txn) : Bool :=
  m.isOutlier (buildFeatures m.log1p t (profileOf (priorTxns ts t)))

/-- Modelled from the spec: the empirical minimum of the raw scores over
the current scored batch. -/
def batchMin (m : ScoringModel) (ts : List Txn) : ℚ :=
  match ts.map (rawOf m ts) with
  | [] => 0
  | x :: xs => xs.foldl min x

/-- Modelled from the spec: the empirical maximum of the raw scores over
the current scored batch. -/
def batchMax (m : ScoringModel) (ts : List Txn) : ℚ :=
  match ts.map (rawOf m ts) with
  | [] => 0
  | x :: xs => xs.foldl max x

/-- Modelled from the spec: one inference pass — features, raw scores,
normalization against the batch min/max, and the scoring fields to be
persisted via update_scores. -/
def computeScores (m : ScoringModel) (ts : List Txn) : List ScoredTxn :=
  ts.map fun t =>
    { txn := t
      riskScore := some (normalizeRisk (batchMin m ts) (batchMax m ts)
        (rawOf m ts t) (flagOf m ts t))
      riskLevel := some (riskLevelOf (normalizeRisk (batchMin m ts)
        (batchMax m ts) (rawOf m ts t) (flagOf m ts t))) }

/-- Modelled from the spec: score_all runs the feature builder, prediction
and normalization over all stored transactions and persists the scoring
fields; the stored transaction fields themselves are immutable. -/
def scoreAll (m : ScoringModel) (store : List ScoredTxn) : List ScoredTxn :=
  computeScores m (store.map ScoredTxn.txn)

theorem computeScores_txn (m : ScoringModel) (ts : List Txn) :
    (computeScores m ts).map ScoredTxn.txn = ts := by
  have key : ∀ l : List Txn, ∀ F : Txn → ScoredTxn,
      (∀ t, (F t).txn = t) → (l.map F).map ScoredTxn.txn = l := by
    intro l F hF
    induction l with
    | nil => rfl
    | cons a tl ih => simp [hF a, ih]
  exact key ts _ fun t => rfl

/-- C5: score_all is idempotent when data and model are unchanged — a
second pass with the same model and no new data reproduces the first
pass's state, and in particular the same risk_score for every transaction. -/
theorem score_all_idempotent (m : ScoringModel) (store : List ScoredTxn) :
    scoreAll m (scoreAll m store) = scoreAll m store ∧
    (scoreAll m (scoreAll m store)).map ScoredTxn.riskScore =
      (scoreAll m store).map ScoredTxn.riskScore := by
  have h : scoreAll m (scoreAll m store) = scoreAll m store := by
    unfold scoreAll
    rw [computeScores_txn]
  exact ⟨h, by rw [h]⟩

/-- Modelled from the spec: the percentile position of a value within a
historical distribution of feature values. -/
def percentileOf (hist : List ℚ) (x : ℚ) : ℚ :=
  100 * ((hist.filter fun v => decide (v ≤ x)).length : ℚ) / (hist.length : ℚ)

/-- Modelled from the spec: the user-history-based unusual-feature tails of
the explanation (spec section 4.6).  `userHist` maps feature names to the
user's historical values of that feature; a feature with no historical
distribution (cold-start user) is excluded from the explanation rather
than erroring. -/
def unusualUserFeatures (userHist : List (String × List ℚ))
    (feats : List (String × ℚ)) : List (String × ℚ) :=
  feats.filterMap fun nv =>
    match userHist.lookup nv.1 with
    | none => none
    | some [] => none
    | some hist =>
        if percentileOf hist nv.2 < 10 ∨ 90 < percentileOf hist nv.2 then
          some (nv.1, percentileOf hist nv.2)
        else none

/-- C7: cold start is total and neutral — with no prior transaction the
feature builder sets amount_vs_user_avg to exactly 1, with at least one
prior it uses amount / user mean; score_all assigns a score to every
stored transaction (scoring never fails); and a user with no historical
distributions contributes no user-history unusual-feature tails. -/
theorem cold_start_neutral (log1p : ℚ → ℚ) (t : Txn) (p : UserProfile)
    (m : ScoringModel) (store : List ScoredTxn) (feats : List (String × ℚ)) :
    (p.count = 0 → (buildFeatures log1p t p).amountVsUserAvg = 1) ∧
    (1 ≤ p.count →
      (buildFeatures log1p t p).amountVsUserAvg = t.amount / p.meanAmount) ∧
    (scoreAll m store).length = store.length ∧
    (∀ e ∈ scoreAll m store, e.riskScore.isSome = true) ∧
    unusualUserFeatures [] feats = [] := by
  refine ⟨?_, ?_, ?_, ?_, ?_⟩
  · intro hp
    simp [buildFeatures, hp]
  · intro hp
    simp [buildFeatures, hp]
  · simp [scoreAll, computeScores]
  · intro e he
    simp only [scoreAll, computeScores, List.mem_map] at he
    obtain ⟨t0, ht0, rfl⟩ := he
    rfl
  · simp [unusualUserFeatures, List.filterMap_eq_nil_iff]

/-- Witness for `cold_start_neutral`: a brand-new user's first transaction
gets the neutral ratio 1. -/
theorem cold_start_neutral_witness :
    (buildFeatures id ⟨5, 0, none, "upload"⟩ ⟨0, 0, none⟩).amountVsUserAvg = 1 :=
  (cold_start_neutral id ⟨5, 0, none, "upload"⟩ ⟨0, 0, none⟩
    ⟨id, fun _ => 0, fun _ => false⟩ [] []).1 rfl

/-- Identifiers bound at module scope of src/src/Dashboard.jsx: the React
default import with its two named hooks (line 1), the lucide-react icon
imports (line 2), and the Dashboard component itself.  `Database` is not among
them — Dashboard.jsx line 2 imports TrendingUp, TrendingDown,
AlertTriangle, Users, DollarSign, Clock, Shield and Zap only. -/
def dashboardModuleBindings : List String :=
  ["React", "useState", "useEffect",
   "TrendingUp", "TrendingDown", "AlertTriangle", "Users", "DollarSign",
   "Clock", "Shield", "Zap", "Dashboard"]

/-- Identifiers additionally bound inside the Dashboard component body and
visible at the stats grid (props, state hooks and local definitions). -/
def dashboardLocalBindings : List String :=
  ["stats", "modelTrained", "onTrainModel",
   "transactions", "setTransactions", "analysisResults", "setAnalysisResults",
   "riskColors", "formatCurrency", "StatCard", "RiskDistributionBar"]

/-- Icon identifiers referenced by the four StatCard elements of the stats
grid, Dashboard.jsx lines 107-131, in source order. -/
def statsGridIconRefs : List String :=
  ["Database", "Users", "DollarSign", "AlertTriangle"]

/-- Statistics object consumed by the Dashboard (shape taken from its
usage in Dashboard.jsx: total_transactions, unique_users, amount stats
and the risk summary). -/
structure Stats where
  total_transactions : ℕ
  unique_users : ℕ
  amountMean : ℚ
  amountTotal : ℚ
  riskLow : ℕ
  riskMedium : ℕ
  riskHigh : ℕ
  riskCritical : ℕ
deriving DecidableEq, Repr

/-- Evaluation of a list of identifier references against an environment:
each reference must be bound; the first unbound identifier aborts
evaluation with a reference error naming it, mirroring how evaluating an
undeclared identifier in a JavaScript module throws a ReferenceError. -/
def evalRefs (env : List String) : List String → Except String ℕ
  | [] => Except.ok 0
  | n :: rest =>
      if env.contains n then (evalRefs env rest).map (· + 1) else Except.error n

/-- Render of the Dashboard component on a stats value: a null stats object
takes the early-return empty-state branch (Dashboard.jsx line 78, no
StatCard evaluated); a non-null stats object renders the stats grid,
evaluating its icon references in the component's scope. -/
def renderDashboard (stats : Option Stats) : Except String ℕ :=
  match stats with
  | none => Except.ok 0
  | some _ => evalRefs (dashboardModuleBindings ++ dashboardLocalBindings) statsGridIconRefs

/-- C8: for every non-null stats object the Dashboard render evaluates the
identifier `Database` in its stats grid, `Database` is bound neither by
an import nor by a local definition of the file, and so the render aborts
at that reference with a reference error instead of producing markup. -/
theorem dashboard_database_unbound (s : Stats) :
    "Database" ∈ statsGridIconRefs ∧
    "Database" ∉ dashboardModuleBindings ++ dashboardLocalBindings ∧
    renderDashboard (some s) = Except.error "Database" := by
  exact ⟨by decide, by decide, rfl⟩

/-- Transaction row as consumed by the Analytics component
(Analytics.jsx): timestamp in epoch milliseconds, amount, risk_score,
risk_level, and the optional user_id. -/
structure ATxn where
  timestamp : ℕ
  amount : ℚ
  risk_score : ℚ
  risk_level : String
  user_id : Option String
deriving DecidableEq, Repr

/-- Hour-of-day extracted from an epoch-milliseconds timestamp, modelling
`new Date(tx.timestamp).getHours()` in the reference timezone; the result
is always in [0, 24). -/
def getHours (ts : ℕ) : ℕ := ts / 3600000 % 24

/-- Embedded from Analytics.jsx lines 28-35: the 24-slot `hourCounts`
array (`new Array(24).fill(0)`) filled by the forEach loop that
increments the slot of each transaction's hour. -/
def hourCounts (data : List ATxn) : List ℕ :=
  data.foldl
    (fun acc tx => acc.set (getHours tx.timestamp)
      (acc.getD (getHours tx.timestamp) 0 + 1))
    (List.replicate 24 0)

/-- Embedded from Analytics.jsx lines 28-35: the 24-slot `riskByHour`
array accumulating risk_score into the slot of each transaction's hour. -/
def riskByHour (data : List ATxn) : List ℚ :=
  data.foldl
    (fun acc tx => acc.set (getHours tx.timestamp)
      (acc.getD (getHours tx.timestamp) 0 + tx.risk_score))
    (List.replicate 24 0)

/-- Entry of the hourly time distribution: hour, transaction count, and
average risk for that hour. -/
structure TimePoint where
  hour : ℕ
  count : ℕ
  avgRisk : ℚ
deriving DecidableEq, Repr

/-- Embedded from Analytics.jsx lines 37-41, the index-aware map
`hourCounts.map((count, hour) => ({ hour, count, avgRisk: count > 0 ?
riskByHour[hour] / count : 0 }))`. -/
def timeDistribution (data : List ATxn) : List TimePoint :=
  (hourCounts data).mapIdx fun hour count =>
    ⟨hour, count,
      if 0 < count then (riskByHour data).getD hour 0 / (count : ℚ) else 0⟩

theorem hourCounts_length (data : List ATxn) : (hourCounts data).length = 24 := by
  have key : ∀ (l : List ATxn) (acc : List ℕ),
      (l.foldl (fun acc tx => acc.set (getHours tx.timestamp)
        (acc.getD (getHours tx.timestamp) 0 + 1)) acc).length = acc.length := by
    intro l
    induction l with
    | nil => intro acc; rfl
    | cons a tl ih => intro acc; rw [List.foldl_cons, ih, List.length_set]
  simpa [hourCounts] using key data (List.replicate 24 0)

/-- C10: the Analytics hourly time distribution has exactly 24 entries,
the entry at index i describes hour i, and every hour with zero
transactions reports average risk 0 — the count > 0 guard keeps the
division total. -/
theorem timeDistribution_total (data : List ATxn) :
    (timeDistribution data).length = 24 ∧
    (∀ i, i < 24 → ((timeDistribution data).getD i ⟨0, 0, 0⟩).hour = i) ∧
    (∀ p ∈ timeDistribution data, p.count = 0 → p.avgRisk = 0) := by
  have hlen : (timeDistribution data).length = 24 := by
    rw [timeDistribution, List.length_mapIdx, hourCounts_length]
  refine ⟨hlen, ?_, ?_⟩
  · intro i hi
    have hi' : i < (timeDistribution data).length := by rw [hlen]; exact hi
    rw [List.getD_eq_getElem _ _ hi']
    have hic : i < (hourCounts data).length := by rw [hourCounts_length]; exact hi
    simp only [timeDistribution, List.getElem_mapIdx]
  · intro p hp hp0
    rw [timeDistribution, List.mem_mapIdx] at hp
    obtain ⟨i, hi, hpi⟩ := hp
    rw [← hpi] at hp0 ⊢
    simp only at hp0
    simp [hp0]

/-- Witness for `timeDistribution_total` at the empty transaction list:
24 entries, hour 5 at index 5, and a zero-count entry with zero average. -/
theorem timeDistribution_total_witness :
    (timeDistribution []).length = 24 ∧
    ((timeDistribution []).getD 5 ⟨0, 0, 0⟩).hour = 5 ∧
    (TimePoint.mk 7 0 0).avgRisk = 0 :=
  ⟨(timeDistribution_total []).1,
    (timeDistribution_total []).2.1 5 (by decide),
    (timeDistribution_total []).2.2 ⟨7, 0, 0⟩ (by decide) rfl⟩


/-- Embedded from Analytics.jsx lines 49-56: the per-user accumulator
object held in `userMap` — user id, transaction count, total amount,
accumulated (later averaged) risk, and high-risk count. -/
structure UserAgg where
  userId : String
  txCount : ℕ
  totalAmount : ℚ
  avgRisk : ℚ
  highRiskCount : ℕ
deriving DecidableEq, Repr

/-- Embedded from Analytics.jsx lines 63-65: the high-risk test on a row. -/
def isHighRisk (tx : ATxn) : Bool :=
  tx.risk_level == "High" || tx.risk_level == "Critical"

/-- Embedded from Analytics.jsx lines 59-65: the in-place update of the
matching map entry — txCount++, totalAmount += amount, avgRisk +=
risk_score, highRiskCount incremented on High/Critical. -/
def bumpUser (tx : ATxn) (uid : String) (u : UserAgg) : UserAgg :=
  if u.userId == uid then
    { u with
      txCount := u.txCount + 1
      totalAmount := u.totalAmount + tx.amount
      avgRisk := u.avgRisk + tx.risk_score
      highRiskCount := u.highRiskCount + if isHighRisk tx then 1 else 0 }
  else u

/-- Embedded from Analytics.jsx lines 46-66: processing one transaction
into `userMap`.  A row whose `user_id` is falsy (absent or the empty
string, line 47) is skipped; a user not yet present first gets a zeroed
entry appended in insertion order (lines 49-56); the matching entry is
then updated in place (lines 59-65). -/
def userMapStep (m : List UserAgg) (tx : ATxn) : List UserAgg :=
  match tx.user_id with
  | none => m
  | some uid =>
      if uid.isEmpty then m
      else
        (if m.any fun u => u.userId == uid then m
         else m ++ [⟨uid, 0, 0, 0, 0⟩]).map (bumpUser tx uid)

/-- Embedded from Analytics.jsx lines 45-66: the forEach loop over the
data, folding from the empty map. -/
def buildUserMap (data : List ATxn) : List UserAgg :=
  data.foldl userMapStep []

/-- The transactions of the data carrying a given user id. -/
def txnsFor (data : List ATxn) (uid : String) : List ATxn :=
  data.filter fun tx => tx.user_id == some uid

theorem bumpUser_userId (tx : ATxn) (uid : String) (u : UserAgg) :
    (bumpUser tx uid u).userId = u.userId := by
  unfold bumpUser
  split <;> rfl

theorem bumpUser_eq_of_ne (tx : ATxn) (uid : String) (u : UserAgg)
    (h : u.userId ≠ uid) : bumpUser tx uid u = u := by
  unfold bumpUser
  rw [if_neg (by simp [h])]

theorem bumpUser_txCount_of_eq (tx : ATxn) (uid : String) (u : UserAgg)
    (h : u.userId = uid) : (bumpUser tx uid u).txCount = u.txCount + 1 := by
  unfold bumpUser
  rw [if_pos (by simp [h])]

theorem bumpUser_avgRisk_of_eq (tx : ATxn) (uid : String) (u : UserAgg)
    (h : u.userId = uid) :
    (bumpUser tx uid u).avgRisk = u.avgRisk + tx.risk_score := by
  unfold bumpUser
  rw [if_pos (by simp [h])]

theorem txnsFor_append (data : List ATxn) (tx : ATxn) (uid : String) :
    txnsFor (data ++ [tx]) uid =
      txnsFor data uid ++ if tx.user_id == some uid then [tx] else [] := by
  simp only [txnsFor, List.filter_append, List.filter_cons, List.filter_nil]

theorem buildUserMap_concat (data : List ATxn) (tx : ATxn) :
    buildUserMap (data ++ [tx]) = userMapStep (buildUserMap data) tx := by
  simp [buildUserMap, List.foldl_append]

theorem buildUserMap_inv (data : List ATxn) :
    (∀ uid : String, (∃ u ∈ buildUserMap data, u.userId = uid) ↔
      (uid.isEmpty = false ∧ ∃ tx ∈ data, tx.user_id = some uid)) ∧
    (∀ u ∈ buildUserMap data,
      u.txCount = (txnsFor data u.userId).length ∧
      u.avgRisk = ((txnsFor data u.userId).map ATxn.risk_score).sum) := by
  induction data using List.reverseRecOn with
  | nil =>
      refine ⟨fun uid => ?_, fun u hu => ?_⟩
      · simp [buildUserMap]
      · simp [buildUserMap] at hu
  | append_singleton data tx ih =>
      obtain ⟨ihPres, ihAgg⟩ := ih
      rw [buildUserMap_concat]
      cases htx : tx.user_id with
      | none =>
          simp only [userMapStep, htx]
          refine ⟨fun uid => ?_, fun u hu => ?_⟩
          · constructor
            · intro h
              obtain ⟨he, t, ht, hid⟩ := (ihPres uid).mp h
              exact ⟨he, t, List.mem_append_left _ ht, hid⟩
            · rintro ⟨he, t, ht, hid⟩
              rcases List.mem_append.mp ht with ht | ht
              · exact (ihPres uid).mpr ⟨he, t, ht, hid⟩
              · rw [List.mem_singleton] at ht
                subst ht
                rw [htx] at hid
                exact Option.noConfusion hid
          · have hfil : txnsFor (data ++ [tx]) u.userId = txnsFor data u.userId := by
              rw [txnsFor_append, htx]
              simp
            rw [hfil]
            exact ihAgg u hu
      | some uid =>
          by_cases hemp : uid.isEmpty = true
          · simp only [userMapStep, htx]
            rw [if_pos hemp]
            refine ⟨fun uid0 => ?_, fun u hu => ?_⟩
            · constructor
              · intro h
                obtain ⟨he, t, ht, hid⟩ := (ihPres uid0).mp h
                exact ⟨he, t, List.mem_append_left _ ht, hid⟩
              · rintro ⟨he, t, ht, hid⟩
                rcases List.mem_append.mp ht with ht | ht
                · exact (ihPres uid0).mpr ⟨he, t, ht, hid⟩
                · rw [List.mem_singleton] at ht
                  subst ht
                  rw [htx] at hid
                  obtain rfl : uid = uid0 := Option.some_inj.mp hid
                  rw [hemp] at he
                  exact Bool.noConfusion he
            · have he : u.userId.isEmpty = false :=
                ((ihPres u.userId).mp ⟨u, hu, rfl⟩).1
              have hne : (some uid : Option String) ≠ some u.userId := by
                intro hEq
                rw [← Option.some_inj.mp hEq, hemp] at he
                exact Bool.noConfusion he
              have hfil : txnsFor (data ++ [tx]) u.userId = txnsFor data u.userId := by
                rw [txnsFor_append, htx, beq_eq_false_iff_ne.mpr hne]
                simp
              rw [hfil]
              exact ihAgg u hu
          · have hemp' : uid.isEmpty = false := by
              cases h : uid.isEmpty
              · rfl
              · exact absurd h hemp
            simp only [userMapStep, htx]
            rw [if_neg hemp]
            have hm1 : ∀ u1 : UserAgg,
                (u1 ∈ (if (buildUserMap data).any fun u => u.userId == uid then
                    buildUserMap data
                  else buildUserMap data ++ [⟨uid, 0, 0, 0, 0⟩])) ↔
                (u1 ∈ buildUserMap data ∨
                  ((¬∃ u ∈ buildUserMap data, u.userId = uid) ∧
                    u1 = ⟨uid, 0, 0, 0, 0⟩)) := by
              intro u1
              split_ifs with hany
              · constructor
                · exact Or.inl
                · rintro (h | ⟨hno, rfl⟩)
                  · exact h
                  · exfalso
                    obtain ⟨u0, hu0, hb⟩ := List.any_eq_true.mp hany
                    exact hno ⟨u0, hu0, by simpa using hb⟩
              · constructor
                · intro h
                  rcases List.mem_append.mp h with h | h
                  · exact Or.inl h
                  · refine Or.inr ⟨?_, List.mem_singleton.mp h⟩
                    rintro ⟨u0, hu0, hid0⟩
                    exact hany (List.any_eq_true.mpr ⟨u0, hu0, by simpa using hid0⟩)
                · rintro (h | ⟨hno, rfl⟩)
                  · exact List.mem_append_left _ h
                  · exact List.mem_append_right _ (List.mem_singleton_self _)
            refine ⟨fun uid0 => ?_, fun u2 h2 => ?_⟩
            · constructor
              · rintro ⟨u2, h2, hid2⟩
                obtain ⟨u1, h1, hF⟩ := List.mem_map.mp h2
                have hid1 : u1.userId = uid0 := by
                  rw [← hid2, ← hF, bumpUser_userId]
                rcases (hm1 u1).mp h1 with h1m | ⟨hno, rfl⟩
                · obtain ⟨he, t, ht, hid⟩ := (ihPres uid0).mp ⟨u1, h1m, hid1⟩
                  exact ⟨he, t, List.mem_append_left _ ht, hid⟩
                · have huid : uid = uid0 := hid1
                  subst huid
                  exact ⟨hemp', tx,
                    List.mem_append_right _ (List.mem_singleton_self tx), htx⟩
              · rintro ⟨he, t, ht, hid⟩
                rcases List.mem_append.mp ht with ht | ht
                · obtain ⟨u1, h1, hid1⟩ := (ihPres uid0).mpr ⟨he, t, ht, hid⟩
                  refine ⟨bumpUser tx uid u1,
                    List.mem_map_of_mem _ ((hm1 u1).mpr (Or.inl h1)), ?_⟩
                  rw [bumpUser_userId]
                  exact hid1
                · rw [List.mem_singleton] at ht
                  rw [ht, htx] at hid
                  obtain rfl : uid = uid0 := Option.some_inj.mp hid
                  by_cases hex : ∃ u ∈ buildUserMap data, u.userId = uid
                  · obtain ⟨u1, h1, hid1⟩ := hex
                    refine ⟨bumpUser tx uid u1,
                      List.mem_map_of_mem _ ((hm1 u1).mpr (Or.inl h1)), ?_⟩
                    rw [bumpUser_userId]
                    exact hid1
                  · refine ⟨bumpUser tx uid ⟨uid, 0, 0, 0, 0⟩,
                      List.mem_map_of_mem _ ((hm1 _).mpr (Or.inr ⟨hex, rfl⟩)), ?_⟩
                    rw [bumpUser_userId]
            · obtain ⟨u1, h1, hF⟩ := List.mem_map.mp h2
              by_cases hid1 : u1.userId = uid
              · have hu2id : u2.userId = uid := by
                  rw [← hF, bumpUser_userId]
                  exact hid1
                have hfil : txnsFor (data ++ [tx]) uid = txnsFor data uid ++ [tx] := by
                  rw [txnsFor_append, htx]
                  simp
                have key : u1.txCount = (txnsFor data uid).length ∧
                    u1.avgRisk = ((txnsFor data uid).map ATxn.risk_score).sum := by
                  rcases (hm1 u1).mp h1 with h1m | ⟨hno, h1z⟩
                  · have h := ihAgg u1 h1m
                    rwa [hid1] at h
                  · have hnil : txnsFor data uid = [] := by
                      rw [txnsFor, List.filter_eq_nil_iff]
                      intro t ht hbt
                      exact hno ((ihPres uid).mpr ⟨hemp', t, ht, by simpa using hbt⟩)
                    rw [h1z, hnil]
                    exact ⟨rfl, rfl⟩
                constructor
                · rw [hu2id, hfil, ← hF, bumpUser_txCount_of_eq tx uid u1 hid1, key.1]
                  simp
                · rw [hu2id, hfil, ← hF, bumpUser_avgRisk_of_eq tx uid u1 hid1, key.2]
                  simp
              · rw [bumpUser_eq_of_ne tx uid u1 hid1] at hF
                subst hF
                have h1m : u1 ∈ buildUserMap data := by
                  rcases (hm1 u1).mp h1 with h | ⟨hno, h1z⟩
                  · exact h
                  · exact absurd (show u1.userId = uid by rw [h1z]) hid1
                have hfil : txnsFor (data ++ [tx]) u1.userId = txnsFor data u1.userId := by
                  rw [txnsFor_append, htx,
                    beq_eq_false_iff_ne.mpr
                      (fun hEq => hid1 (Option.some_inj.mp hEq).symm)]
                  simp
                rw [hfil]
                exact ihAgg u1 h1m

/-- Embedded from Analytics.jsx line 69: final averaging
`{ ...u, avgRisk: u.avgRisk / u.txCount }`. -/
def finalizeUser (u : UserAgg) : UserAgg :=
  { u with avgRisk := u.avgRisk / (u.txCount : ℚ) }

/-- Stable descending insertion by avgRisk, modelling one step of the
stable JavaScript `sort((a, b) => b.avgRisk - a.avgRisk)` of line 70. -/
def insertDesc (x : UserAgg) : List UserAgg → List UserAgg
  | [] => [x]
  | y :: ys =>
      if x.avgRisk ≤ y.avgRisk then y :: insertDesc x ys else x :: y :: ys

/-- Sort the user aggregates in descending avgRisk order (line 70). -/
def sortByAvgRiskDesc : List UserAgg → List UserAgg
  | [] => []
  | x :: xs => insertDesc x (sortByAvgRiskDesc xs)

/-- Embedded from Analytics.jsx lines 68-71: the top-risk-user table —
map the accumulated entries to their averages, sort descending by
avgRisk, and keep the first 10. -/
def processUserAnalytics (data : List ATxn) : List UserAgg :=
  (sortByAvgRiskDesc ((buildUserMap data).map finalizeUser)).take 10

theorem mem_insertDesc (x y : UserAgg) (l : List UserAgg) :
    y ∈ insertDesc x l ↔ y = x ∨ y ∈ l := by
  induction l with
  | nil => simp [insertDesc]
  | cons a tl ih =>
      simp only [insertDesc]
      split_ifs with h
      · rw [List.mem_cons, ih, List.mem_cons]
        tauto
      · simp only [List.mem_cons]

theorem mem_sortByAvgRiskDesc (y : UserAgg) (l : List UserAgg) :
    y ∈ sortByAvgRiskDesc l ↔ y ∈ l := by
  induction l with
  | nil => simp [sortByAvgRiskDesc]
  | cons a tl ih =>
      simp only [sortByAvgRiskDesc]
      rw [mem_insertDesc, ih, List.mem_cons]

theorem pairwise_insertDesc (x : UserAgg) (l : List UserAgg)
    (hl : l.Pairwise fun a b => b.avgRisk ≤ a.avgRisk) :
    (insertDesc x l).Pairwise fun a b => b.avgRisk ≤ a.avgRisk := by
  induction l with
  | nil => simp [insertDesc]
  | cons a tl ih =>
      rw [List.pairwise_cons] at hl
      obtain ⟨ha, htl⟩ := hl
      simp only [insertDesc]
      split_ifs with h
      · rw [List.pairwise_cons]
        refine ⟨?_, ih htl⟩
        intro b hb
        rcases (mem_insertDesc x b tl).mp hb with rfl | hb
        · exact h
        · exact ha b hb
      · rw [List.pairwise_cons]
        constructor
        · intro b hb
          rcases List.mem_cons.mp hb with rfl | hb
          · exact le_of_lt (not_le.mp h)
          · exact le_trans (ha b hb) (le_of_lt (not_le.mp h))
        · exact List.pairwise_cons.mpr ⟨ha, htl⟩

theorem pairwise_sortByAvgRiskDesc (l : List UserAgg) :
    (sortByAvgRiskDesc l).Pairwise fun a b => b.avgRisk ≤ a.avgRisk := by
  induction l with
  | nil => simp [sortByAvgRiskDesc]
  | cons a tl ih =>
      simp only [sortByAvgRiskDesc]
      exact pairwise_insertDesc a _ ih

/-- C9: the Analytics top-risk-user table is built only from transactions
carrying a (nonempty) user_id, holds at most 10 users sorted by avgRisk
in descending order, and each user's avgRisk is the sum of that user's
risk_scores divided by that user's transaction count. -/
theorem user_analytics_spec (data : List ATxn) :
    (processUserAnalytics data).length ≤ 10 ∧
    (processUserAnalytics data).Pairwise (fun a b => b.avgRisk ≤ a.avgRisk) ∧
    ∀ u ∈ processUserAnalytics data,
      u.userId.isEmpty = false ∧
      0 < u.txCount ∧
      u.txCount = (txnsFor data u.userId).length ∧
      u.avgRisk =
        ((txnsFor data u.userId).map ATxn.risk_score).sum / (u.txCount : ℚ) := by
  obtain ⟨hPres, hAgg⟩ := buildUserMap_inv data
  refine ⟨?_, ?_, ?_⟩
  · simp only [processUserAnalytics]
    rw [List.length_take]
    exact min_le_left _ _
  · simp only [processUserAnalytics]
    exact List.Pairwise.sublist (List.take_sublist _ _) (pairwise_sortByAvgRiskDesc _)
  · intro u hu
    simp only [processUserAnalytics] at hu
    have hu1 := List.mem_of_mem_take hu
    rw [mem_sortByAvgRiskDesc] at hu1
    obtain ⟨u0, h0, hFin⟩ := List.mem_map.mp hu1
    have hid : u.userId = u0.userId := by rw [← hFin]; rfl
    have he := (hPres u0.userId).mp ⟨u0, h0, rfl⟩
    have hc := hAgg u0 h0
    have hpos : 0 < u0.txCount := by
      rw [hc.1]
      obtain ⟨t, ht, hidt⟩ := he.2
      have hmem : t ∈ txnsFor data u0.userId := by
        rw [txnsFor, List.mem_filter]
        exact ⟨ht, by simpa using hidt⟩
      exact List.length_pos.mpr (List.ne_nil_of_mem hmem)
    refine ⟨?_, ?_, ?_, ?_⟩
    · rw [hid]
      exact he.1
    · rw [← hFin]
      exact hpos
    · rw [hid, ← hFin]
      exact hc.1
    · rw [hid, ← hFin]
      show u0.avgRisk / (u0.txCount : ℚ) =
        ((txnsFor data u0.userId).map ATxn.risk_score).sum / ((u0.txCount : ℕ) : ℚ)
      rw [hc.2]

/-- Concrete three-row batch for the user-analytics witness: two rows for
user alice (risk 10 and 80, the latter High) and one row without user id. -/
def sampleAnalyticsData : List ATxn :=
  [⟨0, 50, 10, "Low", some "alice"⟩,
   ⟨3600000, 200, 80, "High", some "alice"⟩,
   ⟨0, 10, 5, "Low", none⟩]

/-- Witness for `user_analytics_spec`: on the sample batch, alice's table
entry averages (10 + 80) / 2 = 45 over her two transactions. -/
theorem user_analytics_spec_witness :
    (UserAgg.mk "alice" 2 250 45 1).userId.isEmpty = false ∧
    0 < (UserAgg.mk "alice" 2 250 45 1).txCount ∧
    (UserAgg.mk "alice" 2 250 45 1).txCount =
      (txnsFor sampleAnalyticsData (UserAgg.mk "alice" 2 250 45 1).userId).length ∧
    (UserAgg.mk "alice" 2 250 45 1).avgRisk =
      ((txnsFor sampleAnalyticsData
        (UserAgg.mk "alice" 2 250 45 1).userId).map ATxn.risk_score).sum /
        ((UserAgg.mk "alice" 2 250 45 1).txCount : ℚ) :=
  (user_analytics_spec sampleAnalyticsData).2.2
    (UserAgg.mk "alice" 2 250 45 1)
    (by
      norm_num [processUserAnalytics, sampleAnalyticsData, buildUserMap,
        userMapStep, bumpUser, isHighRisk, finalizeUser, sortByAvgRiskDesc,
        insertDesc]
      exact ⟨by decide, by decide⟩)

/-- Witness for `dashboard_database_unbound` at a concrete stats object. -/
theorem dashboard_database_unbound_witness :
    renderDashboard (some ⟨0, 0, 0, 0, 0, 0, 0, 0⟩) = Except.error "Database" :=
  (dashboard_database_unbound ⟨0, 0, 0, 0, 0, 0, 0, 0⟩).2.2
